import Mathlib

/-!
Verification of the streaming/routing core of claude-code-router.

Text is modelled as `List Char` (`Str`); bytes as `Nat`.  Platform
functions that the source calls (tiktoken's `enc.encode().length`,
`JSON.stringify`, the lenient JSON5 parser used for tool arguments) are
taken as explicit function parameters; `JSON.parse` and the WHATWG
`TextDecoder` UTF-8 decoder are implemented concretely below since the
SSE-parser claims depend on their behaviour.
-/

namespace CCR

/-- Characters of a string; the text representation used throughout. -/
abbrev Str := List Char

/-- Coerce a Lean string literal to `Str`. -/
def chars (s : String) : Str := s.data

/-- Whitespace recognised by JavaScript `trim` (the subset that occurs in
SSE streams) and by the JSON grammar. -/
def isWs (c : Char) : Bool := c == ' ' || c == '\n' || c == '\t' || c == '\r'

/-- `String.prototype.trim`: strip whitespace from both ends. -/
def trim (s : Str) : Str :=
  ((s.dropWhile isWs).reverse.dropWhile isWs).reverse

/-- `String.prototype.toLowerCase` (ASCII case folding suffices here). -/
def toLower (s : Str) : Str := s.map Char.toLower

/-- Index of the first occurrence of `pat` in `s` (`String.prototype.indexOf`). -/
def findSub (pat : Str) : Str → Option Nat
  | [] => if pat = [] then some 0 else none
  | c :: cs =>
      if pat.isPrefixOf (c :: cs) then some 0
      else (findSub pat cs).map (· + 1)

/-- `String.prototype.split(sep)` for a single-character separator. -/
def splitOnChar (sep : Char) : Str → List Str
  | [] => [[]]
  | c :: cs =>
      let r := splitOnChar sep cs
      if c = sep then [] :: r
      else
        match r with
        | [] => [[c]]
        | l :: ls => (c :: l) :: ls

/-- `String.prototype.replace(pat, repl)` with a string pattern: replace the
first occurrence only; return `s` unchanged when `pat` does not occur. -/
def replaceFirst (s pat repl : Str) : Str :=
  match findSub pat s with
  | none => s
  | some i => s.take i ++ repl ++ s.drop (i + pat.length)

/-- The left brace character (written via its code point). -/
def lbrace : Char := Char.ofNat 123

/-- The right brace character (written via its code point). -/
def rbrace : Char := Char.ofNat 125

/-- JSON values.  Numbers keep their source lexeme (the claims under
verification never inspect numeric values, and JavaScript numbers are
floating point). -/
inductive Json where
  | null
  | bool (b : Bool)
  | num (lexeme : Str)
  | str (s : Str)
  | arr (items : List Json)
  | obj (fields : List (Str × Json))

/-- Hex digit value. -/
def hexVal (c : Char) : Option Nat :=
  if '0' ≤ c ∧ c ≤ '9' then some (c.toNat - '0'.toNat)
  else if 'a' ≤ c ∧ c ≤ 'f' then some (c.toNat - 'a'.toNat + 10)
  else if 'A' ≤ c ∧ c ≤ 'F' then some (c.toNat - 'A'.toNat + 10)
  else none

/-- Decimal digit test. -/
def isDigit (c : Char) : Bool := '0' ≤ c && c ≤ '9'

/-- Parse the body of a JSON string literal (opening quote already
consumed); returns the decoded characters and the remaining input.
Surrogate pairs in `\u` escapes are combined; a lone surrogate becomes
U+FFFD because Lean characters are Unicode scalar values. -/
def pString : Nat → Str → Option (Str × Str)
  | 0, _ => none
  | _, [] => none
  | fuel + 1, c :: cs =>
      if c = '"' then some ([], cs)
      else if c = '\\' then
        match cs with
        | [] => none
        | e :: cs' =>
            let simpleEsc : Option Char :=
              if e = '"' then some '"'
              else if e = '\\' then some '\\'
              else if e = '/' then some '/'
              else if e = 'b' then some (Char.ofNat 8)
              else if e = 'f' then some (Char.ofNat 12)
              else if e = 'n' then some '\n'
              else if e = 'r' then some '\r'
              else if e = 't' then some '\t'
              else none
            match simpleEsc with
            | some d =>
                match pString fuel cs' with
                | some (body, rest) => some (d :: body, rest)
                | none => none
            | none =>
                if e = 'u' then
                  match cs' with
                  | h1 :: h2 :: h3 :: h4 :: cs'' =>
                      match hexVal h1, hexVal h2, hexVal h3, hexVal h4 with
                      | some a, some b, some c2, some d =>
                          let n := ((a * 16 + b) * 16 + c2) * 16 + d
                          if 0xD800 ≤ n ∧ n ≤ 0xDBFF then
                            match cs'' with
                            | '\\' :: 'u' :: g1 :: g2 :: g3 :: g4 :: cs''' =>
                                match hexVal g1, hexVal g2, hexVal g3, hexVal g4 with
                                | some a', some b', some c', some d' =>
                                    let m := ((a' * 16 + b') * 16 + c') * 16 + d'
                                    if 0xDC00 ≤ m ∧ m ≤ 0xDFFF then
                                      match pString fuel cs''' with
                                      | some (body, rest) =>
                                          some (Char.ofNat (0x10000 + (n - 0xD800) * 1024 + (m - 0xDC00)) :: body, rest)
                                      | none => none
                                    else
                                      match pString fuel cs'' with
                                      | some (body, rest) => some (Char.ofNat 0xFFFD :: body, rest)
                                      | none => none
                                | _, _, _, _ =>
                                    match pString fuel cs'' with
                                    | some (body, rest) => some (Char.ofNat 0xFFFD :: body, rest)
                                    | none => none
                            | _ =>
                                match pString fuel cs'' with
                                | some (body, rest) => some (Char.ofNat 0xFFFD :: body, rest)
                                | none => none
                          else if 0xDC00 ≤ n ∧ n ≤ 0xDFFF then
                            match pString fuel cs'' with
                            | some (body, rest) => some (Char.ofNat 0xFFFD :: body, rest)
                            | none => none
                          else
                            match pString fuel cs'' with
                            | some (body, rest) => some (Char.ofNat n :: body, rest)
                            | none => none
                      | _, _, _, _ => none
                  | _ => none
                else none
      else if c.toNat < 0x20 then none
      else
        match pString fuel cs with
        | some (body, rest) => some (c :: body, rest)
        | none => none

/-- Parse a JSON number; returns its lexeme and the remaining input. -/
def pNumber (s : Str) : Option (Str × Str) :=
  let (neg, s1) :=
    match s with
    | '-' :: rest => (['-'], rest)
    | _ => (([] : Str), s)
  match s1 with
  | [] => none
  | c :: _ =>
      if ¬ isDigit c then none
      else
        let (intPart, s2) :=
          match s1 with
          | '0' :: rest => (['0'], rest)
          | _ => (s1.takeWhile isDigit, s1.dropWhile isDigit)
        let (fracPart, s3) :=
          match s2 with
          | '.' :: rest =>
              if rest.takeWhile isDigit = [] then (([] : Str), s2)
              else ('.' :: rest.takeWhile isDigit, rest.dropWhile isDigit)
          | _ => (([] : Str), s2)
        let (expPart, s4) :=
          match s3 with
          | e :: rest =>
              if e = 'e' ∨ e = 'E' then
                let (sign, rest') :=
                  match rest with
                  | '+' :: r => ((['+'] : Str), r)
                  | '-' :: r => ((['-'] : Str), r)
                  | _ => (([] : Str), rest)
                if rest'.takeWhile isDigit = [] then (([] : Str), s3)
                else (e :: (sign ++ rest'.takeWhile isDigit), rest'.dropWhile isDigit)
              else (([] : Str), s3)
          | _ => (([] : Str), s3)
        -- a fraction dot without digits makes the whole literal invalid
        match s2 with
        | '.' :: rest =>
            if rest.takeWhile isDigit = [] then none
            else some (neg ++ intPart ++ fracPart ++ expPart, s4)
        | _ => some (neg ++ intPart ++ fracPart ++ expPart, s4)

/-- Strip leading JSON whitespace. -/
def skipWs (s : Str) : Str := s.dropWhile isWs

mutual

/-- Parse one JSON value (leading whitespace already stripped). -/
def parseValue : Nat → Str → Option (Json × Str)
  | 0, _ => none
  | fuel + 1, s =>
      match s with
      | [] => none
      | c :: cs =>
          if c = '"' then
            match pString (cs.length + 1) cs with
            | some (body, rest) => some (.str body, rest)
            | none => none
          else if c = lbrace then
            match skipWs cs with
            | d :: ds =>
                if d = rbrace then some (.obj [], ds)
                else
                  match parseObjItems fuel (d :: ds) with
                  | some (fields, rest) => some (.obj fields, rest)
                  | none => none
            | [] => none
          else if c = '[' then
            match skipWs cs with
            | ']' :: ds => some (.arr [], ds)
            | rest =>
                match parseArrItems fuel rest with
                | some (items, rest') => some (.arr items, rest')
                | none => none
          else if (chars "true").isPrefixOf s then some (.bool true, s.drop 4)
          else if (chars "false").isPrefixOf s then some (.bool false, s.drop 5)
          else if (chars "null").isPrefixOf s then some (.null, s.drop 4)
          else
            match pNumber s with
            | some (lex, rest) => some (.num lex, rest)
            | none => none

/-- Parse the comma-separated items of a JSON array up to `]`. -/
def parseArrItems : Nat → Str → Option (List Json × Str)
  | 0, _ => none
  | fuel + 1, s =>
      match parseValue fuel s with
      | none => none
      | some (v, rest) =>
          match skipWs rest with
          | ']' :: rest' => some ([v], rest')
          | ',' :: rest' =>
              match parseArrItems fuel (skipWs rest') with
              | some (vs, rest'') => some (v :: vs, rest'')
              | none => none
          | _ => none

/-- Parse the comma-separated members of a JSON object up to the closing
brace (first member's opening quote still in the input). -/
def parseObjItems : Nat → Str → Option (List (Str × Json) × Str)
  | 0, _ => none
  | fuel + 1, s =>
      match s with
      | '"' :: cs =>
          match pString (cs.length + 1) cs with
          | none => none
          | some (key, rest) =>
              match skipWs rest with
              | ':' :: rest' =>
                  match parseValue fuel (skipWs rest') with
                  | none => none
                  | some (v, rest'') =>
                      match skipWs rest'' with
                      | d :: ds =>
                          if d = rbrace then some ([(key, v)], ds)
                          else if d = ',' then
                            match parseObjItems fuel (skipWs ds) with
                            | some (fields, rest''') => some ((key, v) :: fields, rest''')
                            | none => none
                          else none
                      | [] => none
              | _ => none
      | _ => none

end

/-- `JSON.parse`: parse a complete JSON document, rejecting trailing
garbage; `none` models a thrown `SyntaxError`. -/
def jsonParse (s : Str) : Option Json :=
  match parseValue (s.length + 1) (skipWs s) with
  | some (v, rest) => if skipWs rest = [] then some v else none
  | none => none

/-- `parseInt(s, 10)` on an already-trimmed string: `none` models `NaN`. -/
def parseIntJs (s : Str) : Option Int :=
  let (sgn, rest) :=
    match s with
    | '-' :: r => ((-1 : Int), r)
    | '+' :: r => ((1 : Int), r)
    | _ => ((1 : Int), s)
  let ds := rest.takeWhile isDigit
  if ds = [] then none
  else some (sgn * (ds.foldl (fun a c => a * 10 + (c.toNat - '0'.toNat)) 0 : Nat))

/-! ## Event Codec: SSEParser.transform.ts -/

/-- `SSEData`: a structured JSON payload, the `[DONE]` terminator sentinel,
or a raw-text-plus-error pair for malformed payloads. -/
inductive SSEData where
  | done
  | json (v : Json)
  | rawError (raw : Str) (error : Str)

/-- `ParsedSSEEvent`: one push-protocol event draft; absent fields are
`none` (in the source, keys that were never assigned). `retry` stores the
`parseInt` result, whose inner `none` models `NaN`. -/
structure ParsedSSEEvent where
  event : Option Str := none
  data : Option SSEData := none
  id : Option Str := none
  retry : Option (Option Int) := none

/-- `Object.keys(currentEvent).length > 0` is false: no field assigned. -/
def isEmptyEvent (e : ParsedSSEEvent) : Bool :=
  e.event.isNone && e.data.isNone && e.id.isNone && e.retry.isNone

namespace SSEParserTransform

/-- `processLine`: update the current event draft with one complete line;
a blank (whitespace-only) line finalizes and returns the draft when it has
at least one field. In the source the flush-mode `events` array is written
only in this blank-line branch, so the single `Option` return covers both
call sites. -/
def processLine (cur : ParsedSSEEvent) (line : Str) : ParsedSSEEvent × Option ParsedSSEEvent :=
  if trim line = [] then
    if isEmptyEvent cur then (cur, none)
    else (({} : ParsedSSEEvent), some cur)
  else if (chars "event:").isPrefixOf line then
    ({ cur with event := some (trim (line.drop 6)) }, none)
  else if (chars "data:").isPrefixOf line then
    let d := trim (line.drop 5)
    if d = chars "[DONE]" then ({ cur with data := some .done }, none)
    else
      match jsonParse d with
      | some v => ({ cur with data := some (.json v) }, none)
      | none => ({ cur with data := some (.rawError d (chars "JSON parse failed")) }, none)
  else if (chars "id:").isPrefixOf line then
    ({ cur with id := some (trim (line.drop 3)) }, none)
  else if (chars "retry:").isPrefixOf line then
    ({ cur with retry := some (parseIntJs (trim (line.drop 6))) }, none)
  else (cur, none)

/-- `buffer.split('\n')` followed by `lines.pop()`: the complete lines and
the retained final (possibly incomplete) fragment. -/
def splitLines : Str → List Str × Str
  | [] => ([], [])
  | c :: cs =>
      let p := splitLines cs
      if c = '\n' then ([] :: p.1, p.2)
      else
        match p.1 with
        | [] => ([], c :: p.2)
        | l :: ls => ((c :: l) :: ls, p.2)

/-- Process a list of complete lines in order, collecting emitted events. -/
def processLines (cur : ParsedSSEEvent) : List Str → ParsedSSEEvent × List ParsedSSEEvent
  | [] => (cur, [])
  | l :: ls =>
      let r1 := processLine cur l
      let r2 := processLines r1.1 ls
      (r2.1, r1.2.toList ++ r2.2)

/-- Parser state carried across `transform` calls: the text accumulation
buffer and the in-progress event draft. -/
structure PState where
  buffer : Str := []
  current : ParsedSSEEvent := {}

/-- `transform` on already-decoded text: append to the buffer, split on
newline, retain the final fragment, process every complete line. -/
def transform (s : PState) (text : Str) : PState × List ParsedSSEEvent :=
  let p := splitLines (s.buffer ++ text)
  let q := processLines s.current p.1
  (⟨p.2, q.1⟩, q.2)

/-- `flush`: process any still-buffered partial line (trimmed) as a final
line, then emit the remaining draft when it has at least one field. The
nonblank guard means this `processLine` call can never itself emit. -/
def flush (s : PState) : List ParsedSSEEvent :=
  let r :=
    if trim s.buffer ≠ [] then processLine s.current (trim s.buffer)
    else (s.current, none)
  r.2.toList ++ (if isEmptyEvent r.1 then [] else [r.1])

/-- Run `transform` over a sequence of text chunks. -/
def runChunks (s : PState) : List Str → PState × List ParsedSSEEvent
  | [] => (s, [])
  | c :: cs =>
      let r1 := transform s c
      let r2 := runChunks r1.1 cs
      (r2.1, r1.2 ++ r2.2)

/-- Full parse of a text-chunk sequence: stream the chunks, then flush. -/
def parseStr (chunksIn : List Str) : List ParsedSSEEvent :=
  let r := runChunks {} chunksIn
  r.2 ++ flush r.1

/-! UTF-8 decoding. The source constructs a fresh non-streaming
`TextDecoder` for every chunk, so each chunk is decoded independently with
the WHATWG UTF-8 decoder, emitting U+FFFD for malformed or truncated
sequences. -/

/-- In-progress multi-byte sequence of the WHATWG UTF-8 decoder. -/
structure Utf8Pending where
  cp : Nat
  needed : Nat
  seen : Nat
  lb : Nat
  ub : Nat

/-- Handling of one byte in the `bytesNeeded = 0` state of the WHATWG
UTF-8 decoder: either a finished character (ASCII, or replacement for an
invalid lead byte) or the pending state opened by a valid lead byte. -/
def utf8Lead (b : Nat) : Sum Char Utf8Pending :=
  if b ≤ 0x7F then .inl (Char.ofNat b)
  else if 0xC2 ≤ b ∧ b ≤ 0xDF then .inr ⟨b % 32, 1, 0, 0x80, 0xBF⟩
  else if 0xE0 ≤ b ∧ b ≤ 0xEF then
    .inr ⟨b % 16, 2, 0, if b = 0xE0 then 0xA0 else 0x80,
          if b = 0xED then 0x9F else 0xBF⟩
  else if 0xF0 ≤ b ∧ b ≤ 0xF4 then
    .inr ⟨b % 8, 3, 0, if b = 0xF0 then 0x90 else 0x80,
          if b = 0xF4 then 0x8F else 0xBF⟩
  else .inl (Char.ofNat 0xFFFD)

/-- WHATWG UTF-8 decode loop with replacement on error; a byte that is not
a valid continuation is restored and reprocessed as a lead byte. -/
def utf8Aux : Option Utf8Pending → List Nat → List Char
  | none, [] => []
  | some _, [] => [Char.ofNat 0xFFFD]
  | none, b :: bs =>
      match utf8Lead b with
      | .inl c => c :: utf8Aux none bs
      | .inr p => utf8Aux (some p) bs
  | some p, b :: bs =>
      if p.lb ≤ b ∧ b ≤ p.ub then
        let cp := p.cp * 64 + (b % 64)
        if p.seen + 1 = p.needed then Char.ofNat cp :: utf8Aux none bs
        else utf8Aux (some ⟨cp, p.needed, p.seen + 1, 0x80, 0xBF⟩) bs
      else
        Char.ofNat 0xFFFD ::
          (match utf8Lead b with
           | .inl c => c :: utf8Aux none bs
           | .inr p' => utf8Aux (some p') bs)

/-- One `TextDecoder().decode(chunk)` call. -/
def decodeUtf8 (bs : List Nat) : List Char := utf8Aux none bs

/-- `transform` as the source runs it: decode the byte chunk with a fresh
decoder, then process the resulting text. -/
def transformBytes (s : PState) (chunk : List Nat) : PState × List ParsedSSEEvent :=
  transform s (decodeUtf8 chunk)

/-- Run `transform` over a sequence of byte chunks. -/
def runByteChunks (s : PState) : List (List Nat) → PState × List ParsedSSEEvent
  | [] => (s, [])
  | c :: cs =>
      let r1 := transformBytes s c
      let r2 := runByteChunks r1.1 cs
      (r2.1, r1.2 ++ r2.2)

/-- Full parse of a byte-chunk sequence: stream the chunks, then flush. -/
def parseBytes (chunksIn : List (List Nat)) : List ParsedSSEEvent :=
  let r := runByteChunks {} chunksIn
  r.2 ++ flush r.1

/-- Observable projection used to compare event sequences: the decoded
string payload of a structured JSON string datum. -/
def dataStrOf (e : ParsedSSEEvent) : Option Str :=
  match e.data with
  | some (.json (.str s)) => some s
  | _ => none

end SSEParserTransform

/-! ## Router: router.ts

Text content is `Str`; the tiktoken encoder length function
`enc.encode(s).length` and `JSON.stringify` are explicit parameters
(`encLen`, `stringify`). -/

/-- One content block of a message.  `toolUse` keeps the fields the source
reads (`input` for token counting); `toolResult` content is a string or an
object (`JSON.stringify`-ed when counted); `other` covers block types the
counter ignores (e.g. image). -/
inductive ContentPart where
  | text (t : Str)
  | toolUse (input : Json)
  | toolResult (content : Sum Str Json)
  | other

/-- `message.content`: a plain string or an array of content blocks. -/
inductive MsgContent where
  | str (s : Str)
  | parts (ps : List ContentPart)

/-- One request message. -/
structure MessageParam where
  role : Str
  content : MsgContent

/-- `item.text` of a system block: string, array of strings, or absent. -/
inductive SysText where
  | str (s : Str)
  | arr (ts : List Str)
  | undef

/-- One system-prompt block. -/
structure SysItem where
  type : Str
  text : SysText

/-- `req.body.system`: a string, an array of blocks, or absent. -/
inductive SystemVal where
  | str (s : Str)
  | arr (items : List SysItem)
  | undef

/-- A declared tool. `description`/`input_schema` may be absent; `type` is
the field the web-search routing rule inspects. -/
structure Tool where
  name : Str := []
  description : Option Str := none
  input_schema : Option Json := none
  type : Option Str := none

/-- Token contribution of one message (string content, else the
text/tool_use/tool_result blocks; other block types count 0). -/
def countMessage (encLen : Str → Nat) (stringify : Json → Str) (m : MessageParam) : Nat :=
  match m.content with
  | .str s => encLen s
  | .parts ps =>
      (ps.map (fun p =>
        match p with
        | .text t => encLen t
        | .toolUse input => encLen (stringify input)
        | .toolResult (.inl s) => encLen s
        | .toolResult (.inr j) => encLen (stringify j)
        | .other => 0)).sum

/-- Token contribution of the system prompt.  Non-`text` items are
skipped; `enc.encode(textPart || "")` is the identity on strings that are
already present, so the nested-array case maps `encLen` directly. -/
def countSystem (encLen : Str → Nat) : SystemVal → Nat
  | .str s => encLen s
  | .arr items =>
      (items.map (fun it =>
        if it.type ≠ chars "text" then 0
        else
          match it.text with
          | .str t => encLen t
          | .arr ts => (ts.map encLen).sum
          | .undef => 0)).sum
  | .undef => 0

/-- Token contribution of one tool: `name + description` only when the
description is truthy (present and nonempty), plus the stringified input
schema when present. -/
def countTool (encLen : Str → Nat) (stringify : Json → Str) (t : Tool) : Nat :=
  (match t.description with
   | some d => if d = [] then 0 else encLen (t.name ++ d)
   | none => 0) +
  (match t.input_schema with
   | some sch => encLen (stringify sch)
   | none => 0)

/-- `calculateTokenCount`: sum of the three independently counted
sections.  An absent `messages`/`tools` value contributes 0 exactly like
the empty list, so both are modelled as lists. -/
def calculateTokenCount (encLen : Str → Nat) (stringify : Json → Str)
    (messages : List MessageParam) (system : SystemVal) (tools : List Tool) : Nat :=
  (messages.map (countMessage encLen stringify)).sum
    + countSystem encLen system
    + (tools.map (countTool encLen stringify)).sum

/-- A configured provider: name and model list. -/
structure Provider where
  name : Str
  models : List Str
deriving DecidableEq

/-- A routing section (`Router` of a configuration file). -/
structure RouterCfg where
  default : Str
  background : Option Str := none
  think : Option Str := none
  longContext : Option Str := none
  longContextThreshold : Option Nat := none
  webSearch : Option Str := none

/-- Session usage record. -/
structure Usage where
  input_tokens : Nat
  output_tokens : Nat

/-- JavaScript truthiness of an optional string config value: present and
nonempty. -/
def truthyStr : Option Str → Option Str
  | some s => if s = [] then none else some s
  | none => none

/-- `Router.longContextThreshold || 60000` (absent or `0` both fall back
to the default, by JavaScript falsiness). -/
def resolveThreshold (r : RouterCfg) : Nat :=
  match r.longContextThreshold with
  | some n => if n = 0 then 60000 else n
  | none => 60000

/-- Request-body fields consulted by `getUseModel`.  `thinking` is the
truthiness of `req.body.thinking`; `tools` is `none` when the field is not
an array. -/
structure ReqBody where
  model : Str
  system : SystemVal := .undef
  tools : Option (List Tool) := none
  thinking : Bool := false

/-- Which routing rule produced the decision. -/
inductive RouteTag where
  | explicitResolved
  | explicitRaw
  | longContext
  | subagent
  | background
  | webSearch
  | think
  | dflt
deriving DecidableEq

/-- Routing outcome: deciding rule, selected model string, and the
(possibly rewritten) system prompt — the subagent rule strips its sentinel
tag from `system[1].text` in place. -/
structure RouteResult where
  tag : RouteTag
  model : Str
  system : SystemVal

/-- `req.body.system[1].text` when it is a string block (the only shape on
which `startsWith` is defined; other shapes make the guard falsy). -/
def subagentTextOf : SystemVal → Option Str
  | .arr items =>
      match items.get? 1 with
      | some it =>
          match it.text with
          | .str t => some t
          | _ => none
      | none => none
  | _ => none

/-- Replace `system[1].text` after the subagent tag has been stripped. -/
def setSystem1Text (sys : SystemVal) (t : Str) : SystemVal :=
  match sys with
  | .arr (a :: b :: rest) => .arr (a :: { b with text := .str t } :: rest)
  | s => s

/-- The subagent rule's guard: the `startsWith` test combined with the
lazy regex match — the position of the first close tag after the open
tag's 20 characters, when the text starts with the open tag. -/
def subagentMatch (t : Str) : Option Nat :=
  if (chars "<CCR-SUBAGENT-MODEL>").isPrefixOf t then
    findSub (chars "</CCR-SUBAGENT-MODEL>") (t.drop (chars "<CCR-SUBAGENT-MODEL>").length)
  else none

/-- Routing rules 3–7 (subagent override, background tier, web-search,
thinking, default).  `Router` is the active (override or global) section;
the background rule reads `config.Router.background` — the global
section — in the source, and that is preserved here. -/
def getUseModelTail (globalRouter Router : RouterCfg) (body : ReqBody) : RouteResult :=
  let rule7 : RouteResult := ⟨.dflt, Router.default, body.system⟩
  let rule6 : RouteResult :=
    match truthyStr Router.think, body.thinking with
    | some tm, true => ⟨.think, tm, body.system⟩
    | _, _ => rule7
  let rule5 : RouteResult :=
    match truthyStr Router.webSearch with
    | some ws =>
        if (match body.tools with
            | some ts => ts.any (fun t =>
                match t.type with
                | some ty => (chars "web_search").isPrefixOf ty
                | none => false)
            | none => false) then ⟨.webSearch, ws, body.system⟩
        else rule6
    | none => rule6
  let rule4 : RouteResult :=
    match truthyStr globalRouter.background with
    | some bg =>
        if (findSub (chars "claude") body.model).isSome ∧
           (findSub (chars "haiku") body.model).isSome then ⟨.background, bg, body.system⟩
        else rule5
    | none => rule5
  let openTag := chars "<CCR-SUBAGENT-MODEL>"
  let closeTag := chars "</CCR-SUBAGENT-MODEL>"
  match subagentTextOf body.system with
  | some t =>
      match subagentMatch t with
      | some i =>
          let mid := (t.drop openTag.length).take i
          let newText := replaceFirst t (openTag ++ mid ++ closeTag) []
          ⟨.subagent, mid, setSystem1Text body.system newText⟩
      | none => rule4
  | none => rule4

/-- `getUseModel`: rule 1 (explicit `provider,model`), rule 2
(long-context), then the tail rules.  `projectRouter` is the result of
`getProjectSpecificRouter` (a filesystem lookup, supplied as input). -/
def getUseModel (providers : List Provider) (globalRouter : RouterCfg)
    (projectRouter : Option RouterCfg) (body : ReqBody)
    (tokenCount : Nat) (lastUsage : Option Usage) : RouteResult :=
  let Router := projectRouter.getD globalRouter
  if body.model.contains ',' then
    let parts := splitOnChar ',' body.model
    let providerPart := parts.head?.getD []
    let modelPart := (parts.get? 1).getD []
    match providers.find? (fun p => toLower p.name = providerPart) with
    | some fp =>
        match fp.models.find? (fun m => toLower m = modelPart) with
        | some fm =>
            -- `finalModel` is tested for truthiness: the empty string fails it
            if fm = [] then ⟨.explicitRaw, body.model, body.system⟩
            else ⟨.explicitResolved, fp.name ++ [','] ++ fm, body.system⟩
        | none => ⟨.explicitRaw, body.model, body.system⟩
    | none => ⟨.explicitRaw, body.model, body.system⟩
  else
    let longContextThreshold := resolveThreshold Router
    let lastUsageThreshold :=
      match lastUsage with
      | some u => decide (u.input_tokens > longContextThreshold) && decide (tokenCount > 20000)
      | none => false
    let tokenCountThreshold := decide (tokenCount > longContextThreshold)
    match truthyStr Router.longContext, lastUsageThreshold || tokenCountThreshold with
    | some lc, true => ⟨.longContext, lc, body.system⟩
    | _, _ => getUseModelTail globalRouter Router body

/-! ## Tool-Call Interceptor: processCheck.ts (onSend helpers)

Agents and their tool handlers are external (`agentsManager`); they are
modelled as function-valued parameters.  A handler either returns a string
result (`Except.ok`) or throws (`Except.error`); the lenient JSON5 parser
for tool arguments is a parameter `json5Parse` (`none` models a throw). -/

/-- An assistant `tool_use` entry (the constant `type: "tool_use"` tag is
carried by the Lean type). -/
structure ToolUseMessage where
  id : Str
  name : Str
  input : Json

/-- A user `tool_result` entry; `content` is `none` when the handler
lookup produced `undefined`. -/
structure ToolResultMessage where
  tool_use_id : Str
  content : Option Str

/-- A registered agent: its tool table (`tools.get`). -/
structure Agent where
  tools : Str → Option (Json → Except Unit Str)

/-- `agentsManager.getAgent`. -/
structure AgentsManager where
  getAgent : Str → Option Agent

/-- `AgentToolState`: per-stream tool interception state.
`currentToolIndex` starts at `-1`; when a start event carries no index the
source stores `undefined`, which behaves like `-1` under every later
guard (`> -1` fails first), so absent indices default to `-1` here. -/
structure AgentToolState where
  currentAgent : Option Agent := none
  currentToolIndex : Int := -1
  currentToolName : Str := []
  currentToolArgs : Str := []
  currentToolId : Str := []
  toolMessages : List ToolResultMessage := []
  assistantMessages : List ToolUseMessage := []

/-- `createAgentToolState`. -/
def createAgentToolState : AgentToolState := {}

/-- `resetToolState`: clears the in-flight invocation fields; the
`toolMessages`/`assistantMessages` lists are not touched. -/
def resetToolState (st : AgentToolState) : AgentToolState :=
  { st with currentAgent := none, currentToolIndex := -1, currentToolName := [],
            currentToolArgs := [], currentToolId := [] }

/-- `content_block` of a stream event. -/
structure ContentBlock where
  name : Option Str := none
  id : Option Str := none

/-- `delta` of a stream event; `pjson` models the source field
`partial_json`. -/
structure Delta where
  type : Option Str := none
  pjson : Option Str := none

/-- `data` of a stream event (the fields the interceptor reads). -/
structure SSEEventData where
  content_block : Option ContentBlock := none
  index : Option Int := none
  delta : Option Delta := none
  type : Option Str := none

/-- One parsed stream event as the interceptor sees it. -/
structure SSEEvent where
  event : Option Str := none
  data : SSEEventData := {}

/-- `data.data.index === state.currentToolIndex` (an absent event index is
`undefined`, never equal to a numeric state index). -/
def idxEq (evIdx : Option Int) (stIdx : Int) : Bool :=
  match evIdx with
  | some i => i == stIdx
  | none => false

/-- `detectToolCallStart`: on a `content_block_start` whose block name is
a tool registered by one of the request's active agents, bind the
invocation state and report `true`. -/
def detectToolCallStart (mgr : AgentsManager) (ev : SSEEvent)
    (st : AgentToolState) (agents : List Str) : AgentToolState × Bool :=
  match ev.event, ev.data.content_block with
  | some e, some cb =>
      if e = chars "content_block_start" then
        match cb.name with
        | some nm =>
            if nm = [] then (st, false)
            else
              match agents.find? (fun a =>
                  ((mgr.getAgent a).bind (fun ag => ag.tools nm)).isSome) with
              | some a =>
                  ({ st with currentAgent := mgr.getAgent a,
                             currentToolIndex := (ev.data.index).getD (-1),
                             currentToolName := nm,
                             currentToolId := (cb.id).getD [] }, true)
              | none => (st, false)
        | none => (st, false)
      else (st, false)
  | _, _ => (st, false)

/-- `collectToolArguments`: append an `input_json_delta` fragment for the
bound index to the accumulator. -/
def collectToolArguments (ev : SSEEvent) (st : AgentToolState) : AgentToolState × Bool :=
  if st.currentToolIndex > -1 ∧ idxEq ev.data.index st.currentToolIndex ∧
     (ev.data.delta.bind (·.type)) = some (chars "input_json_delta") then
    ({ st with currentToolArgs :=
        st.currentToolArgs ++ ((ev.data.delta.bind (·.pjson)).getD []) }, true)
  else (st, false)

/-- `executeAgentTool`: on the matching `content_block_stop`, parse the
accumulated arguments and run the handler inside one try/catch.  The
assistant `tool_use` entry is pushed before the handler runs; the user
`tool_result` entry only after it returns.  The state is reset in all
cases and `true` is reported. -/
def executeAgentTool (json5Parse : Str → Option Json) (ev : SSEEvent)
    (st : AgentToolState) : AgentToolState × Bool :=
  if st.currentToolIndex > -1 ∧ idxEq ev.data.index st.currentToolIndex ∧
     ev.data.type = some (chars "content_block_stop") then
    let st' :=
      match json5Parse st.currentToolArgs with
      | none => st  -- JSON5.parse threw: caught and logged, lists untouched
      | some args =>
          let st1 := { st with assistantMessages :=
              st.assistantMessages ++ [⟨st.currentToolId, st.currentToolName, args⟩] }
          match st.currentAgent with
          | none => { st1 with toolMessages :=
              st1.toolMessages ++ [⟨st.currentToolId, none⟩] }
          | some ag =>
              match ag.tools st.currentToolName with
              | none => { st1 with toolMessages :=
                  st1.toolMessages ++ [⟨st.currentToolId, none⟩] }
              | some h =>
                  match h args with
                  | .ok r => { st1 with toolMessages :=
                      st1.toolMessages ++ [⟨st.currentToolId, some r⟩] }
                  | .error _ => st1  -- handler threw: caught, no tool_result
    (resetToolState st', true)
  else (st, false)

/-- One entry of `routerReq.body.messages`: pre-existing history, or one
of the two message shapes the interceptor appends. -/
inductive BodyMessage where
  | prior (m : MessageParam)
  | assistantToolUses (l : List ToolUseMessage)
  | userToolResults (l : List ToolResultMessage)

/-- Outcome of the internal continuation fetch: a network error or timeout
abort, or a response with its ok-flag and (when consumed) its parsed event
stream. -/
inductive FetchOutcome where
  | fetchError
  | resp (ok : Bool) (events : List SSEEvent)

/-- The `value.event && ['message_start', 'message_stop'].includes(value.event)`
test (an absent — or empty, hence falsy — event name is also not in the
list, so `==` against the two names captures it). -/
def envelopeEvent (e : SSEEvent) : Bool :=
  match e.event with
  | some nm => nm == chars "message_start" || nm == chars "message_stop"
  | none => false

/-- `pipeResponseToController` loop on a cleanly delivered event list:
skip `message_start`/`message_stop`; before each enqueue consult
`accept k` (the truthiness of `controller.desiredSize` when `k` events
have been enqueued) and stop forwarding once it is falsy. -/
def pipeEvents (accept : Nat → Bool) : Nat → List SSEEvent → List SSEEvent
  | _, [] => []
  | k, e :: es =>
      if envelopeEvent e then pipeEvents accept k es
      else if accept k then e :: pipeEvents accept (k + 1) es
      else []

/-- `fetchToolResponse`: push one assistant message (the recorded
tool-use entries) and one user message (the recorded tool-result entries)
onto the request's message history, then issue the continuation request
with that body and pipe its response.  A network error, timeout, or
non-ok status forwards nothing (the pushes remain). -/
def fetchToolResponse (fetchO : List BodyMessage → FetchOutcome)
    (accept : Nat → Bool) (msgs : List BodyMessage) (st : AgentToolState) :
    List BodyMessage × List SSEEvent :=
  let msgs' := msgs ++ [.assistantToolUses st.assistantMessages,
                        .userToolResults st.toolMessages]
  let forwarded :=
    match fetchO msgs' with
    | .fetchError => []
    | .resp false _ => []
    | .resp true evs => pipeEvents accept 0 evs
  (msgs', forwarded)

/-- Result of one step of the agent stream processor: updated state and
message history, the optional passthrough event, the request bodies of the
continuation fetches issued during the step, and the continuation events
forwarded to the output. -/
structure StepResult where
  state : AgentToolState
  messages : List BodyMessage
  passthrough : Option SSEEvent
  requests : List (List BodyMessage)
  forwarded : List SSEEvent

/-- The `createAgentStreamProcessor` step function: detect a tool start,
collect arguments, execute on stop, or — on `message_delta` with pending
tool results — issue the continuation; otherwise pass the event through. -/
def processEvent (mgr : AgentsManager) (json5Parse : Str → Option Json)
    (fetchO : List BodyMessage → FetchOutcome) (accept : Nat → Bool)
    (agents : List Str) (st : AgentToolState) (msgs : List BodyMessage)
    (ev : SSEEvent) : StepResult :=
  let d := detectToolCallStart mgr ev st agents
  if d.2 then ⟨d.1, msgs, none, [], []⟩
  else
    let c := collectToolArguments ev st
    if c.2 then ⟨c.1, msgs, none, [], []⟩
    else
      let x := executeAgentTool json5Parse ev st
      if x.2 then ⟨x.1, msgs, none, [], []⟩
      else if ev.event == some (chars "message_delta") && !st.toolMessages.isEmpty then
        let f := fetchToolResponse fetchO accept msgs st
        ⟨st, f.1, none, [f.1], f.2⟩
      else ⟨st, msgs, some ev, [], []⟩

/-! ## Stream Rewriter: rewriteStream.ts

`rewriteStream` runs its whole read loop inside `start(controller)`: it
registers no `cancel` handler and never consults `controller.desiredSize`.
The consumer is modelled by `cancelAt`, the number of outputs it accepts
before cancelling; per WHATWG Streams, `enqueue` on a cancelled stream
throws, which is the only way the loop can observe the consumer.  The
step function may enqueue items via the controller (`fst`) and/or return
one value to enqueue (`snd`). -/

/-- Attempt a sequence of `controller.enqueue` calls with `k` outputs
already delivered: returns the new count, the delivered items, and
whether an enqueue threw because the stream was cancelled. -/
def enqueueSeq (cancelAt : Nat) : Nat → List β → Nat × List β × Bool
  | k, [] => (k, [], false)
  | k, b :: bs =>
      if cancelAt ≤ k then (k, [], true)
      else
        let r := enqueueSeq cancelAt (k + 1) bs
        (r.1, b :: r.2.1, r.2.2)

/-- Run of the `start` loop: number of `reader.read()` calls performed and
the outputs delivered to the consumer.  An enqueue throw is caught by the
`catch`/`finally` (the `controller.error` on a cancelled stream is a
no-op) and ends the loop. -/
def rewriteStream (step : α → List β × Option β) (cancelAt : Nat) :
    Nat → List α → Nat × List β
  | _, [] => (1, [])  -- final read observes done; close() ends the loop
  | k, a :: rest =>
      let s := step a
      let attempts := s.1 ++ s.2.toList
      let e := enqueueSeq cancelAt k attempts
      if e.2.2 then (1, e.2.1)
      else
        let r := rewriteStream step cancelAt e.1 rest
        (1 + r.1, e.2.1 ++ r.2)

/-! ## Theorems -/

/-- When the controller always accepts, the continuation pipe forwards
exactly the non-envelope events. -/
theorem pipeEvents_all_accept (accept : Nat → Bool) (h : ∀ k, accept k = true) :
    ∀ (k : Nat) (evs : List SSEEvent),
      pipeEvents accept k evs = evs.filter (fun e => !envelopeEvent e) := by
  intro k evs
  induction evs generalizing k with
  | nil => rfl
  | cons e es ih =>
      by_cases he : envelopeEvent e = true
      · simp [pipeEvents, he, List.filter, ih]
      · simp [pipeEvents, he, h k, List.filter, ih]

/-- C7: `calculateTokenCount` is additive across the message, system and
tool sections: counting each section alone (with the other two empty) and
summing gives the combined count, for every encoder and stringifier. -/
theorem c7_token_count_additive (encLen : Str → Nat) (stringify : Json → Str)
    (m : List MessageParam) (s : SystemVal) (t : List Tool) :
    calculateTokenCount encLen stringify m s t =
      calculateTokenCount encLen stringify m .undef []
        + calculateTokenCount encLen stringify [] s []
        + calculateTokenCount encLen stringify [] .undef t := by
  simp [calculateTokenCount, countSystem]

/-- C9 is false on the code: with the consumer cancelled before accepting
any output (`cancelAt = 0`), "no further reads" would allow at most the
one in-flight read, but the `start` loop of `rewriteStream` — which has no
`cancel` handler and never consults `desiredSize` — performs four reads on
a three-item source whose step function produces no output. -/
theorem c9_counterexample :
    ¬ ((rewriteStream (fun (_ : Nat) => (([] : List Nat), (none : Option Nat)))
        0 0 [0, 1, 2]).1 ≤ 1) := by
  decide

/-- C9 amended: `rewriteStream` keeps reading the source regardless of the
consumer.  Cancellation is observable only through a throwing `enqueue`,
so when the step function enqueues nothing the loop always performs
`length + 1` reads (and delivers nothing), no matter when the consumer
cancelled. -/
theorem c9_reads_ignore_cancellation {α β : Type} (cancelAt k : Nat) (source : List α) :
    rewriteStream (fun (_ : α) => (([] : List β), (none : Option β))) cancelAt k source
      = (source.length + 1, []) := by
  induction source generalizing k with
  | nil => rfl
  | cons a rest ih => simp [rewriteStream, enqueueSeq, ih]; omega

/-- C3 is false on the code: the background rule reads the global
configuration's `background` target even when a session/project override
is active.  With an override supplying only a default, the decision for a
Haiku request changes when the global `background` changes — the global
configuration does contribute to rules 2–7. -/
theorem c3_counterexample :
    (getUseModel [] ⟨chars "gd", some (chars "gb"), none, none, none, none⟩
        (some ⟨chars "od", none, none, none, none, none⟩)
        { model := chars "claude-haiku" } 0 none).model ≠
      (getUseModel [] ⟨chars "gd", none, none, none, none, none⟩
        (some ⟨chars "od", none, none, none, none, none⟩)
        { model := chars "claude-haiku" } 0 none).model := by
  decide

/-- C3 amended: when a session/project override is active, the global
route configuration contributes to rules 2–7 only through its
`background` target (which the background rule reads for both its guard
and its result); two global configurations agreeing on `background` yield
identical decisions under the same override. -/
theorem c3_override_replaces_global_except_background
    (providers : List Provider) (g g' o : RouterCfg) (body : ReqBody)
    (tc : Nat) (lu : Option Usage) (hbg : g.background = g'.background) :
    getUseModel providers g (some o) body tc lu
      = getUseModel providers g' (some o) body tc lu := by
  have htail : getUseModelTail g o body = getUseModelTail g' o body := by
    simp only [getUseModelTail, hbg]
  simp only [getUseModel, Option.getD_some]
  rw [htail]

/-- C3 witness: two global configurations differing in their default but
agreeing on `background` route identically under a concrete override. -/
theorem c3_witness :
    getUseModel [] ⟨chars "gd", some (chars "bg"), none, none, none, none⟩
        (some ⟨chars "od", none, none, none, none, none⟩)
        { model := chars "m" } 0 none
      = getUseModel [] ⟨chars "gd2", some (chars "bg"), none, none, none, none⟩
        (some ⟨chars "od", none, none, none, none, none⟩)
        { model := chars "m" } 0 none :=
  c3_override_replaces_global_except_background [] _ _ _ _ 0 none rfl

/-- C2 is false on the code: rule 1 compares the request's parts against
the lowercased configured names, so a pair that resolves case-insensitively
(here `OPENROUTER,GPT-4` against provider `OpenRouter` with model `GPT-4`)
is not resolved to the canonical form; the raw string comes back instead. -/
theorem c2_counterexample :
    toLower (chars "OPENROUTER") = toLower (chars "OpenRouter") ∧
    toLower (chars "GPT-4") = toLower (chars "GPT-4") ∧
    (getUseModel [⟨chars "OpenRouter", [chars "GPT-4"]⟩]
        ⟨chars "gd", none, none, none, none, none⟩ none
        { model := chars "OPENROUTER,GPT-4" } 0 none).model = chars "OPENROUTER,GPT-4" ∧
    chars "OPENROUTER,GPT-4" ≠ chars "OpenRouter,GPT-4" := by
  decide

/-- C2 amended: for a request model containing a comma, only rule 1
decides (tag is one of the two explicit outcomes).  The pair resolves when
the provider part equals the lowercase of a configured provider's name and
the model part equals the lowercase of one of its models (and that model
is nonempty), giving the canonical `<ProviderName>,<model>` form; when the
pair does not resolve this way the raw model string is returned unchanged. -/
theorem c2_explicit_pair_rules (providers : List Provider) (g : RouterCfg)
    (pr : Option RouterCfg) (body : ReqBody) (tc : Nat) (lu : Option Usage)
    (hc : body.model.contains ',' = true) :
    let res := getUseModel providers g pr body tc lu
    let providerPart := (splitOnChar ',' body.model).head?.getD []
    let modelPart := ((splitOnChar ',' body.model).get? 1).getD []
    (res.tag = .explicitResolved ∨ res.tag = .explicitRaw) ∧
    (res.tag = .explicitRaw → res.model = body.model ∧ res.system = body.system) ∧
    (∀ fp fm, providers.find? (fun p => toLower p.name = providerPart) = some fp →
        fp.models.find? (fun m => toLower m = modelPart) = some fm → fm ≠ [] →
        res = ⟨.explicitResolved, fp.name ++ [','] ++ fm, body.system⟩) ∧
    (providers.find? (fun p => toLower p.name = providerPart) = none →
        res = ⟨.explicitRaw, body.model, body.system⟩) ∧
    (∀ fp, providers.find? (fun p => toLower p.name = providerPart) = some fp →
        fp.models.find? (fun m => toLower m = modelPart) = none →
        res = ⟨.explicitRaw, body.model, body.system⟩) ∧
    (∀ fp fm, providers.find? (fun p => toLower p.name = providerPart) = some fp →
        fp.models.find? (fun m => toLower m = modelPart) = some fm → fm = [] →
        res = ⟨.explicitRaw, body.model, body.system⟩) := by
  intro res providerPart modelPart
  have hres : res =
      (match providers.find? (fun p => toLower p.name = providerPart) with
       | some fp =>
           match fp.models.find? (fun m => toLower m = modelPart) with
           | some fm =>
               if fm = [] then ⟨.explicitRaw, body.model, body.system⟩
               else ⟨.explicitResolved, fp.name ++ [','] ++ fm, body.system⟩
           | none => ⟨.explicitRaw, body.model, body.system⟩
       | none => ⟨.explicitRaw, body.model, body.system⟩) := by
    simp only [res, providerPart, modelPart, getUseModel, hc, if_true]
  rcases hfp : providers.find? (fun p => toLower p.name = providerPart) with _ | fp
  · simp only [hfp] at hres
    refine ⟨Or.inr (by rw [hres]), fun _ => ⟨by rw [hres], by rw [hres]⟩, ?_, fun _ => hres,
      ?_, ?_⟩
    · intro fp' fm' h1 h2 h3
      simp [hfp] at h1
    · intro fp' h1 h2
      simp [hfp] at h1
    · intro fp' fm' h1 h2 h3
      simp [hfp] at h1
  · simp only [hfp] at hres
    rcases hfm : fp.models.find? (fun m => toLower m = modelPart) with _ | fm
    · simp only [hfm] at hres
      refine ⟨Or.inr (by rw [hres]), fun _ => ⟨by rw [hres], by rw [hres]⟩, ?_, ?_, ?_, ?_⟩
      · intro fp' fm' h1 h2 h3
        rw [hfp] at h1
        cases h1
        simp [hfm] at h2
      · intro h
        rw [hfp] at h
        cases h
      · intro fp' h1 h2
        rw [hfp] at h1
        cases h1
        exact hres
      · intro fp' fm' h1 h2 h3
        rw [hfp] at h1
        cases h1
        simp [hfm] at h2
    · simp only [hfm] at hres
      by_cases hfe : fm = []
      · simp only [if_pos hfe] at hres
        refine ⟨Or.inr (by rw [hres]), fun _ => ⟨by rw [hres], by rw [hres]⟩, ?_, ?_, ?_, ?_⟩
        · intro fp' fm' h1 h2 h3
          rw [hfp] at h1
          cases h1
          rw [hfm] at h2
          cases h2
          exact absurd hfe h3
        · intro h
          rw [hfp] at h
          cases h
        · intro fp' h1 h2
          rw [hfp] at h1
          cases h1
          simp [hfm] at h2
        · intro fp' fm' h1 h2 h3
          rw [hfp] at h1
          cases h1
          rw [hfm] at h2
          cases h2
          exact hres
      · simp only [if_neg hfe] at hres
        refine ⟨Or.inl (by rw [hres]), ?_, ?_, ?_, ?_, ?_⟩
        · intro h
          rw [hres] at h
          simp at h
        · intro fp' fm' h1 h2 h3
          rw [hfp] at h1
          cases h1
          rw [hfm] at h2
          cases h2
          exact hres
        · intro h
          rw [hfp] at h
          cases h
        · intro fp' h1 h2
          rw [hfp] at h1
          cases h1
          simp [hfm] at h2
        · intro fp' fm' h1 h2 h3
          rw [hfp] at h1
          cases h1
          rw [hfm] at h2
          cases h2
          exact absurd h3 hfe

/-- C2 witness: a lowercase request pair resolves against mixed-case
configuration to the canonical form. -/
theorem c2_witness :
    getUseModel [⟨chars "OpenRouter", [chars "GPT-4"]⟩]
        ⟨chars "gd", none, none, none, none, none⟩ none
        { model := chars "openrouter,gpt-4" } 0 none
      = ⟨.explicitResolved, chars "OpenRouter,GPT-4", .undef⟩ :=
  ((c2_explicit_pair_rules [⟨chars "OpenRouter", [chars "GPT-4"]⟩]
      ⟨chars "gd", none, none, none, none, none⟩ none
      { model := chars "openrouter,gpt-4" } 0 none (by decide)).2.2.1
    ⟨chars "OpenRouter", [chars "GPT-4"]⟩ (chars "GPT-4")
    rfl rfl (by decide))

/-- No rule of the tail chain (subagent, background, web-search, thinking,
default) carries the long-context tag. -/
theorem getUseModelTail_tag_ne (g r : RouterCfg) (body : ReqBody) :
    (getUseModelTail g r body).tag ≠ RouteTag.longContext := by
  unfold getUseModelTail
  intro h
  repeat' split at h
  all_goals simp at h

/-- C4: for a comma-free request model, the decision is the long-context
rule exactly when a long-context target is configured in the active route
section and either the token count exceeds the resolved threshold
(configured value, defaulting to 60000), or the session's last usage has
`input_tokens` above the threshold and the token count exceeds 20000. -/
theorem c4_long_context_iff (providers : List Provider) (g : RouterCfg)
    (pr : Option RouterCfg) (body : ReqBody) (tc : Nat) (lu : Option Usage)
    (hnc : body.model.contains ',' = false) :
    ((getUseModel providers g pr body tc lu).tag = .longContext ↔
      ((truthyStr (pr.getD g).longContext).isSome = true ∧
        (tc > resolveThreshold (pr.getD g) ∨
          (match lu with
           | some u => u.input_tokens > resolveThreshold (pr.getD g) ∧ tc > 20000
           | none => False)))) := by
  have hne := getUseModelTail_tag_ne g (pr.getD g) body
  simp only [getUseModel, hnc, Bool.false_eq_true, if_false]
  rcases hlc : truthyStr ((pr.getD g).longContext) with _ | lc
  · simp [hlc, hne]
  · rcases lu with _ | u
    · by_cases htc : tc > resolveThreshold (pr.getD g)
      · simp [hlc, htc]
      · simp [hlc, htc, hne]
    · by_cases hin : u.input_tokens > resolveThreshold (pr.getD g) <;>
        by_cases h20 : tc > 20000 <;>
        by_cases htc : tc > resolveThreshold (pr.getD g) <;>
        simp [hlc, hin, h20, htc, hne]

/-- C4 witness: size 70000 over the default threshold 60000 with a
configured long-context target selects the long-context rule. -/
theorem c4_witness :
    ((getUseModel [] ⟨chars "gd", none, none, some (chars "lc"), none, none⟩ none
        { model := chars "m" } 70000 none).tag = .longContext ↔
      ((truthyStr ((none : Option RouterCfg).getD
          ⟨chars "gd", none, none, some (chars "lc"), none, none⟩).longContext).isSome = true ∧
        (70000 > resolveThreshold ((none : Option RouterCfg).getD
            ⟨chars "gd", none, none, some (chars "lc"), none, none⟩) ∨
          (match (none : Option Usage) with
           | some u => u.input_tokens > resolveThreshold ((none : Option RouterCfg).getD
               ⟨chars "gd", none, none, some (chars "lc"), none, none⟩) ∧ 70000 > 20000
           | none => False)))) :=
  c4_long_context_iff [] ⟨chars "gd", none, none, some (chars "lc"), none, none⟩ none
    { model := chars "m" } 70000 none (by decide)

/-- A `message_delta` event received in the idle state with pending tool
results takes the continuation branch of the stream-processor step. -/
theorem processEvent_message_delta (mgr : AgentsManager) (json5Parse : Str → Option Json)
    (fetchO : List BodyMessage → FetchOutcome) (accept : Nat → Bool)
    (agents : List Str) (st : AgentToolState) (msgs : List BodyMessage) (ev : SSEEvent)
    (hev : ev.event = some (chars "message_delta"))
    (hidle : st.currentToolIndex = -1)
    (hpend : st.toolMessages ≠ []) :
    processEvent mgr json5Parse fetchO accept agents st msgs ev =
      ⟨st, (fetchToolResponse fetchO accept msgs st).1, none,
       [(fetchToolResponse fetchO accept msgs st).1],
       (fetchToolResponse fetchO accept msgs st).2⟩ := by
  have hne : chars "message_delta" ≠ chars "content_block_start" := by decide
  have hdet : (detectToolCallStart mgr ev st agents).2 = false := by
    cases hcb : ev.data.content_block with
    | none => simp [detectToolCallStart, hev, hcb]
    | some cb => simp [detectToolCallStart, hev, hcb, hne]
  have hcol : (collectToolArguments ev st).2 = false := by
    simp [collectToolArguments, hidle]
  have hexe : (executeAgentTool json5Parse ev st).2 = false := by
    simp [executeAgentTool, hidle]
  have hmd : (ev.event == some (chars "message_delta") && !st.toolMessages.isEmpty) = true := by
    rcases htm : st.toolMessages with _ | ⟨m, ms⟩
    · exact absurd htm hpend
    · simp [hev]
  simp only [processEvent, hdet, hcol, hexe, hmd, Bool.false_eq_true, if_false, if_true]

/-- C1: in the idle state, a turn-complete (`message_delta`) event with at
least one recorded tool result issues exactly one continuation request
whose message history is the current history extended by exactly one
assistant message (the recorded tool-use entries) and one user message
(the recorded tool-result entries); when the continuation responds ok and
the consumer keeps accepting, exactly the events not named
`message_start`/`message_stop` are forwarded, and nothing is passed
through for the triggering event. -/
theorem c1_continuation_turn (mgr : AgentsManager) (json5Parse : Str → Option Json)
    (fetchO : List BodyMessage → FetchOutcome) (accept : Nat → Bool)
    (agents : List Str) (st : AgentToolState) (msgs : List BodyMessage)
    (ev : SSEEvent) (evs : List SSEEvent)
    (hev : ev.event = some (chars "message_delta"))
    (hidle : st.currentToolIndex = -1)
    (hpend : st.toolMessages ≠ [])
    (hfetch : fetchO (msgs ++ [.assistantToolUses st.assistantMessages,
        .userToolResults st.toolMessages]) = .resp true evs)
    (haccept : ∀ k, accept k = true) :
    let r := processEvent mgr json5Parse fetchO accept agents st msgs ev
    r.requests = [msgs ++ [.assistantToolUses st.assistantMessages,
        .userToolResults st.toolMessages]] ∧
    r.messages = msgs ++ [.assistantToolUses st.assistantMessages,
        .userToolResults st.toolMessages] ∧
    r.forwarded = evs.filter (fun e => !envelopeEvent e) ∧
    r.passthrough = none := by
  intro r
  have hr := processEvent_message_delta mgr json5Parse fetchO accept agents st msgs ev
    hev hidle hpend
  have hfr : fetchToolResponse fetchO accept msgs st =
      (msgs ++ [.assistantToolUses st.assistantMessages,
        .userToolResults st.toolMessages], evs.filter (fun e => !envelopeEvent e)) := by
    simp only [fetchToolResponse, hfetch, pipeEvents_all_accept accept haccept]
  simp only [r, hr, hfr]
  exact ⟨trivial, trivial, trivial, trivial⟩

/-- C1 witness: one recorded tool result, a clean continuation stream of
three events (start, delta, stop): one request is issued with the two
appended messages and only the inner delta event is forwarded. -/
theorem c1_witness :
    let tr : ToolResultMessage := ⟨chars "id", some (chars "out")⟩
    let st : AgentToolState := { toolMessages := [tr] }
    let ev : SSEEvent := { event := some (chars "message_delta") }
    let innerEv : SSEEvent := { event := some (chars "content_block_delta") }
    let evs : List SSEEvent := [{ event := some (chars "message_start") }, innerEv,
      { event := some (chars "message_stop") }]
    let fetchO : List BodyMessage → FetchOutcome := fun _ => .resp true evs
    let r := processEvent ⟨fun _ => none⟩ jsonParse fetchO (fun _ => true) [] st [] ev
    r.requests = [[BodyMessage.assistantToolUses [], BodyMessage.userToolResults [tr]]] ∧
    r.messages = [BodyMessage.assistantToolUses [], BodyMessage.userToolResults [tr]] ∧
    r.forwarded = [innerEv] ∧
    r.passthrough = none := by
  have h := c1_continuation_turn ⟨fun _ => none⟩ jsonParse
    (fun _ => .resp true [{ event := some (chars "message_start") },
      { event := some (chars "content_block_delta") },
      { event := some (chars "message_stop") }])
    (fun _ => true) [] { toolMessages := [⟨chars "id", some (chars "out")⟩] } []
    { event := some (chars "message_delta") }
    [{ event := some (chars "message_start") },
      { event := some (chars "content_block_delta") },
      { event := some (chars "message_stop") }]
    rfl rfl (by simp) rfl (fun _ => rfl)
  exact ⟨h.1, h.2.1, by rw [h.2.2.1]; rfl, h.2.2.2⟩

/-- C10: the recorded tool-use/tool-result lists survive a continuation
(the reset clears only the in-flight fields), so a second turn-complete
event on the same stream issues another continuation whose body appends
the same assistant and user messages a second time. -/
theorem c10_lists_never_cleared (mgr : AgentsManager) (json5Parse : Str → Option Json)
    (fetchO : List BodyMessage → FetchOutcome) (accept : Nat → Bool)
    (agents : List Str) (st : AgentToolState) (msgs : List BodyMessage) (ev : SSEEvent)
    (hev : ev.event = some (chars "message_delta"))
    (hidle : st.currentToolIndex = -1)
    (hpend : st.toolMessages ≠ []) :
    let r1 := processEvent mgr json5Parse fetchO accept agents st msgs ev
    let r2 := processEvent mgr json5Parse fetchO accept agents r1.state r1.messages ev
    r1.state = st ∧
    r1.state.toolMessages = st.toolMessages ∧
    r1.state.assistantMessages = st.assistantMessages ∧
    r2.requests = [msgs ++ [.assistantToolUses st.assistantMessages,
        .userToolResults st.toolMessages,
        .assistantToolUses st.assistantMessages,
        .userToolResults st.toolMessages]] := by
  intro r1 r2
  have hr1 := processEvent_message_delta mgr json5Parse fetchO accept agents st msgs ev
    hev hidle hpend
  have hstate : r1.state = st := by simp only [r1, hr1]
  have hmsgs : r1.messages = msgs ++ [.assistantToolUses st.assistantMessages,
      .userToolResults st.toolMessages] := by
    simp only [r1, hr1]
    simp [fetchToolResponse]
  have hr2 := processEvent_message_delta mgr json5Parse fetchO accept agents r1.state
    r1.messages ev hev (by rw [hstate]; exact hidle) (by rw [hstate]; exact hpend)
  refine ⟨hstate, by rw [hstate], by rw [hstate], ?_⟩
  have hreq : r2.requests = [r1.messages ++ [.assistantToolUses r1.state.assistantMessages,
      .userToolResults r1.state.toolMessages]] := by
    simp only [r2, hr2]
    simp [fetchToolResponse]
  rw [hreq, hmsgs, hstate]
  simp

/-- C10 witness: two successive `message_delta` events with one recorded
tool result double-append the same two messages. -/
theorem c10_witness :
    let tr : ToolResultMessage := ⟨chars "id", some (chars "out")⟩
    let st : AgentToolState := { toolMessages := [tr] }
    let ev : SSEEvent := { event := some (chars "message_delta") }
    let fetchO : List BodyMessage → FetchOutcome := fun _ => .fetchError
    let r1 := processEvent ⟨fun _ => none⟩ jsonParse fetchO (fun _ => true) [] st [] ev
    let r2 := processEvent ⟨fun _ => none⟩ jsonParse fetchO (fun _ => true) [] r1.state r1.messages ev
    r1.state = st ∧
    r1.state.toolMessages = st.toolMessages ∧
    r1.state.assistantMessages = st.assistantMessages ∧
    r2.requests = [[BodyMessage.assistantToolUses [], BodyMessage.userToolResults [tr],
        BodyMessage.assistantToolUses [], BodyMessage.userToolResults [tr]]] := by
  have h := c10_lists_never_cleared ⟨fun _ => none⟩ jsonParse (fun _ => .fetchError)
    (fun _ => true) [] { toolMessages := [⟨chars "id", some (chars "out")⟩] } []
    { event := some (chars "message_delta") } rfl rfl (by simp)
  exact ⟨h.1, h.2.1, h.2.2.1, by rw [h.2.2.2]; rfl⟩

/-- C6 is false on the code as stated: when the tool handler throws, the
assistant `tool_use` entry has already been pushed (it is recorded before
the handler is invoked), so an entry for the failed invocation does remain
among the turn's recorded tool messages — only the `tool_result` entry is
missing.  Here a handler that always throws leaves `toolMessages` empty
but grows `assistantMessages` from zero to one entry. -/
theorem c6_counterexample :
    let ag : Agent := ⟨fun nm => if nm = chars "t" then some (fun _ => .error ()) else none⟩
    let st : AgentToolState :=
      { currentAgent := some ag, currentToolIndex := 0, currentToolName := chars "t",
        currentToolArgs := chars "\x7b\x7d", currentToolId := chars "id" }
    let ev : SSEEvent :=
      { data := { index := some 0, type := some (chars "content_block_stop") } }
    let r := executeAgentTool jsonParse ev st
    r.2 = true ∧ r.1.toolMessages = [] ∧
    st.assistantMessages.length = 0 ∧ r.1.assistantMessages.length = 1 :=
  ⟨rfl, rfl, rfl, rfl⟩

/-- C6 amended: on the matching `content_block_stop`, the event is
consumed and the accumulator and bound index (and the other in-flight
fields) are cleared in all cases; a parse failure records nothing; a
handler failure records no `tool_result` entry but leaves the assistant
`tool_use` entry, which was pushed before the handler ran. -/
theorem c6_failure_drops_invocation (json5Parse : Str → Option Json)
    (ev : SSEEvent) (st : AgentToolState)
    (hidx : st.currentToolIndex > -1)
    (heq : idxEq ev.data.index st.currentToolIndex = true)
    (hstop : ev.data.type = some (chars "content_block_stop")) :
    let r := executeAgentTool json5Parse ev st
    r.2 = true ∧
    r.1.currentToolIndex = -1 ∧ r.1.currentToolArgs = [] ∧
    r.1.currentToolName = [] ∧ r.1.currentToolId = [] ∧ r.1.currentAgent = none ∧
    (json5Parse st.currentToolArgs = none →
        r.1.assistantMessages = st.assistantMessages ∧
        r.1.toolMessages = st.toolMessages) ∧
    (∀ args ag h, json5Parse st.currentToolArgs = some args →
        st.currentAgent = some ag → ag.tools st.currentToolName = some h →
        h args = .error () →
        r.1.toolMessages = st.toolMessages ∧
        r.1.assistantMessages = st.assistantMessages ++
          [⟨st.currentToolId, st.currentToolName, args⟩]) := by
  intro r
  refine ⟨?_, ?_, ?_, ?_, ?_, ?_, ?_, ?_⟩
  · simp [r, executeAgentTool, hidx, heq, hstop]
  · simp [r, executeAgentTool, hidx, heq, hstop, resetToolState]
  · simp [r, executeAgentTool, hidx, heq, hstop, resetToolState]
  · simp [r, executeAgentTool, hidx, heq, hstop, resetToolState]
  · simp [r, executeAgentTool, hidx, heq, hstop, resetToolState]
  · simp [r, executeAgentTool, hidx, heq, hstop, resetToolState]
  · intro hp
    simp [r, executeAgentTool, hidx, heq, hstop, hp, resetToolState]
  · intro args ag h hp hag hh herr
    simp [r, executeAgentTool, hidx, heq, hstop, hp, hag, hh, herr, resetToolState]

/-- C6 witness: a parse failure (unparseable accumulated arguments) leaves
both recorded lists unchanged, with the invocation state cleared. -/
theorem c6_witness :
    let st : AgentToolState :=
      { currentToolIndex := 0, currentToolName := chars "t",
        currentToolArgs := chars "oops", currentToolId := chars "id" }
    let ev : SSEEvent :=
      { data := { index := some 0, type := some (chars "content_block_stop") } }
    let r := executeAgentTool jsonParse ev st
    r.1.assistantMessages = st.assistantMessages ∧
    r.1.toolMessages = st.toolMessages :=
  (c6_failure_drops_invocation jsonParse
    { data := { index := some 0, type := some (chars "content_block_stop") } }
    { currentToolIndex := 0, currentToolName := chars "t",
      currentToolArgs := chars "oops", currentToolId := chars "id" }
    (by decide) rfl rfl).2.2.2.2.2.2.1 rfl

/-- Trimming drops a leading whitespace character. -/
theorem trim_cons_ws (c : Char) (l : Str) (h : isWs c = true) : trim (c :: l) = trim l := by
  simp [trim, List.dropWhile_cons, h]

/-- A string with a non-whitespace head does not trim to empty. -/
theorem trim_ne_nil_head (c : Char) (l : Str) (h : isWs c = false) : trim (c :: l) ≠ [] := by
  intro hcontra
  simp only [trim, List.dropWhile_cons, h, Bool.false_eq_true, if_false] at hcontra
  rw [List.reverse_eq_nil_iff, List.dropWhile_eq_nil_iff] at hcontra
  have hc := hcontra c (by simp)
  rw [h] at hc
  cases hc

open SSEParserTransform in
/-- C8: a `data: <text>` line whose trimmed text is neither the terminator
token nor valid JSON never fails the parser: the current draft's payload
becomes the raw text tagged with the parse-error marker, and processing of
any subsequent lines continues exactly as from that updated draft. -/
theorem c8_malformed_data_nonfatal (cur : ParsedSSEEvent) (t : Str) (ls : List Str)
    (hjson : jsonParse (trim t) = none)
    (hdone : trim t ≠ chars "[DONE]") :
    processLine cur (chars "data: " ++ t) =
      ({ cur with data := some (.rawError (trim t) (chars "JSON parse failed")) }, none) ∧
    processLines cur ((chars "data: " ++ t) :: ls) =
      processLines { cur with data := some (.rawError (trim t)
        (chars "JSON parse failed")) } ls := by
  have h1 : trim (chars "data: " ++ t) ≠ [] := by
    have hshape : chars "data: " ++ t = 'd' :: (chars "ata: " ++ t) := rfl
    rw [hshape]
    exact trim_ne_nil_head 'd' _ (by decide)
  have hline : processLine cur (chars "data: " ++ t) =
      ({ cur with data := some (.rawError (trim t) (chars "JSON parse failed")) }, none) := by
    have he : (chars "event:").isPrefixOf (chars "data: " ++ t) = false := rfl
    have hd : (chars "data:").isPrefixOf (chars "data: " ++ t) = true := rfl
    have hdrop : (chars "data: " ++ t).drop 5 = ' ' :: t := rfl
    have htr : trim (' ' :: t) = trim t := trim_cons_ws ' ' t rfl
    unfold processLine
    rw [if_neg h1]
    simp only [he, hd, Bool.false_eq_true, if_false, if_true, hdrop, htr, hjson,
      if_neg hdone]
  refine ⟨hline, ?_⟩
  unfold processLines
  rw [hline]
  cases ls <;> simp [processLines]

open SSEParserTransform in
/-- C8 witness: the malformed payload `oops` after `data: ` yields the
raw-tagged draft and line processing continues. -/
theorem c8_witness :
    processLine {} (chars "data: " ++ chars "oops") =
      ({ data := some (.rawError (trim (chars "oops")) (chars "JSON parse failed")) },
        none) ∧
    processLines {} ((chars "data: " ++ chars "oops") :: [chars "data: [DONE]"]) =
      processLines { data := some (.rawError (trim (chars "oops"))
        (chars "JSON parse failed")) } [chars "data: [DONE]"] :=
  c8_malformed_data_nonfatal {} (chars "oops") [chars "data: [DONE]"]
    rfl (by decide)

/-- `trim` in terms of the Mathlib combinators. -/
theorem trim_eq_rdropWhile (s : Str) :
    trim s = List.rdropWhile isWs (List.dropWhile isWs s) := rfl

/-- The head surviving a `dropWhile` fails the predicate. -/
theorem dropWhile_head_false {α : Type} (p : α → Bool) (l : List α) (x : α) (xs : List α)
    (h : List.dropWhile p l = x :: xs) : p x = false := by
  induction l with
  | nil => cases h
  | cons c cs ih =>
      by_cases hp : p c = true
      · rw [List.dropWhile_cons, if_pos hp] at h
        exact ih h
      · rw [List.dropWhile_cons, if_neg hp] at h
        cases h
        simpa using hp

/-- Trimming is idempotent. -/
theorem trim_idem (s : Str) : trim (trim s) = trim s := by
  rw [trim_eq_rdropWhile, trim_eq_rdropWhile]
  have h1 : List.dropWhile isWs (List.rdropWhile isWs (List.dropWhile isWs s)) =
      List.rdropWhile isWs (List.dropWhile isWs s) := by
    obtain ⟨t, ht⟩ := List.rdropWhile_prefix isWs (List.dropWhile isWs s)
    rcases hX : List.rdropWhile isWs (List.dropWhile isWs s) with _ | ⟨x, xs⟩
    · simp
    · rw [hX] at ht
      have hnx : isWs x = false :=
        dropWhile_head_false isWs s x (xs ++ t) (by rw [← ht]; simp)
      simp [List.dropWhile_cons, hnx]
  rw [h1, List.rdropWhile_idempotent]

open SSEParserTransform in
/-- A line that does not trim to blank never finalizes an event: every
non-blank branch of `processLine` returns no emission. -/
theorem processLine_no_emit (cur : ParsedSSEEvent) (line : Str) (h : trim line ≠ []) :
    (processLine cur line).2 = none := by
  simp only [processLine, if_neg h]
  repeat' split
  all_goals rfl

namespace SSEParserTransform

/-- `splitLines` distributes over concatenation: the complete lines of
`x ++ y` are those of `x` followed by those of the retained fragment of
`x` prepended to `y`. -/
theorem splitLines_append (x y : Str) :
    splitLines (x ++ y) =
      ((splitLines x).1 ++ (splitLines ((splitLines x).2 ++ y)).1,
       (splitLines ((splitLines x).2 ++ y)).2) := by
  induction x with
  | nil => simp [splitLines]
  | cons c cs ih =>
      by_cases hc : c = '\n'
      · subst hc
        simp [splitLines, ih]
      · rcases hA : (splitLines cs).1 with _ | ⟨a, as⟩ <;>
          rcases hB : (splitLines ((splitLines cs).2 ++ y)).1 with _ | ⟨b, bs⟩ <;>
          simp [splitLines, hc, ih, hA, hB]

/-- The retained fragment never contains a newline. -/
theorem splitLines_snd_no_nl (t : Str) : '\n' ∉ (splitLines t).2 := by
  induction t with
  | nil => simp [splitLines]
  | cons c cs ih =>
      by_cases hc : c = '\n'
      · subst hc
        simpa [splitLines] using ih
      · rcases hA : (splitLines cs).1 with _ | ⟨a, as⟩ <;> simp_all [splitLines, hc, hA]
        exact Ne.symm hc

/-- `processLines` over a concatenation runs the two parts in sequence. -/
theorem processLines_append (cur : ParsedSSEEvent) (l1 l2 : List Str) :
    processLines cur (l1 ++ l2) =
      ((processLines (processLines cur l1).1 l2).1,
       (processLines cur l1).2 ++ (processLines (processLines cur l1).1 l2).2) := by
  induction l1 generalizing cur with
  | nil => simp [processLines]
  | cons l ls ih => simp [processLines, ih]

/-- `transform` over a concatenation equals the two transforms in
sequence, events concatenated. -/
theorem transform_append (s : PState) (a b : Str) :
    transform s (a ++ b) =
      ((transform (transform s a).1 b).1,
       (transform s a).2 ++ (transform (transform s a).1 b).2) := by
  simp only [transform, ← List.append_assoc]
  rw [splitLines_append (s.buffer ++ a) b]
  rw [processLines_append]

/-- A chunk of text with no newline in the buffer and no content is a
no-op. -/
theorem splitLines_no_nl (t : Str) (h : '\n' ∉ t) : splitLines t = ([], t) := by
  induction t with
  | nil => rfl
  | cons c cs ih =>
      simp only [List.mem_cons, not_or] at h
      simp [splitLines, Ne.symm h.1, ih h.2]

/-- A chunk of text with no newline in the buffer and no content is a
no-op. -/
theorem transform_nil (s : PState) (h : '\n' ∉ s.buffer) : transform s [] = (s, []) := by
  simp [transform, splitLines_no_nl s.buffer h, processLines]

/-- Streaming any chunking equals one transform of the concatenation,
provided the starting buffer holds no newline (true of every reachable
state). -/
theorem runChunks_eq_join (s : PState) (h : '\n' ∉ s.buffer) (chunksIn : List Str) :
    runChunks s chunksIn = transform s chunksIn.flatten := by
  induction chunksIn generalizing s with
  | nil =>
      rw [List.flatten_nil, transform_nil s h]
      rfl
  | cons c cs ih =>
      have hbuf : '\n' ∉ (transform s c).1.buffer := by
        simp only [transform]
        exact splitLines_snd_no_nl (s.buffer ++ c)
      rw [List.flatten_cons, transform_append s c cs.flatten]
      simp only [runChunks, ih (transform s c).1 hbuf]

end SSEParserTransform

open SSEParserTransform in
/-- C5 is false on the code for byte-level chunking: the source constructs
a fresh non-streaming `TextDecoder` per chunk, so splitting the well-formed
stream `data: "é"\n\n` between the two UTF-8 bytes of `é` (0xC3 0xA9)
mangles the payload into replacement characters and yields a different
event sequence from the unsplit stream. -/
theorem c5_counterexample :
    parseBytes [[0x64, 0x61, 0x74, 0x61, 0x3A, 0x20, 0x22, 0xC3],
        [0xA9, 0x22, 0x0A, 0x0A]] ≠
      parseBytes [[0x64, 0x61, 0x74, 0x61, 0x3A, 0x20, 0x22, 0xC3, 0xA9, 0x22, 0x0A, 0x0A]] := by
  intro h
  have hmap := congrArg (List.map dataStrOf) h
  exact absurd hmap (by decide)

open SSEParserTransform in
/-- C5 amended: the event sequence is invariant under re-chunking at
character boundaries (equivalently, at byte boundaries that do not split a
multi-byte UTF-8 sequence): any chunk list parses identically to its
concatenation.  At end-of-input, a buffered partial line is processed (in
trimmed form) as a final line, and a draft with at least one field set is
emitted even without a trailing blank line, so such an event is not
dropped. -/
theorem c5_rechunk_and_flush :
    (∀ chunksIn : List Str, parseStr chunksIn = parseStr [chunksIn.flatten]) ∧
    (∀ cur : ParsedSSEEvent, isEmptyEvent cur = false → flush ⟨[], cur⟩ = [cur]) ∧
    (∀ (cur : ParsedSSEEvent) (t : Str), trim t ≠ [] →
        flush ⟨t, cur⟩ = flush ⟨[], (processLine cur (trim t)).1⟩) := by
  refine ⟨?_, ?_, ?_⟩
  · intro chunksIn
    have h0 : '\n' ∉ (({} : PState)).buffer := by simp [PState]
    unfold parseStr
    rw [runChunks_eq_join {} h0 chunksIn]
    have hone : runChunks {} [chunksIn.flatten] = transform {} chunksIn.flatten := by
      rw [runChunks_eq_join {} h0 [chunksIn.flatten]]
      simp
    rw [hone]
  · intro cur h
    simp [flush, trim, h]
  · intro cur t ht
    have hno : (processLine cur (trim t)).2 = none := by
      apply processLine_no_emit
      rw [trim_idem]
      exact ht
    have hL : flush ⟨t, cur⟩ =
        (processLine cur (trim t)).2.toList ++
          (if isEmptyEvent (processLine cur (trim t)).1 then []
           else [(processLine cur (trim t)).1]) := by
      unfold flush
      dsimp only
      rw [if_pos ht]
    have hR : flush ⟨[], (processLine cur (trim t)).1⟩ =
        (if isEmptyEvent (processLine cur (trim t)).1 then []
         else [(processLine cur (trim t)).1]) := by
      unfold flush
      dsimp only
      rw [if_neg (by decide)]
      simp
    rw [hL, hR, hno]
    rfl

open SSEParserTransform in
/-- C5 witness: a draft holding only an event name is emitted by the
flush, and a buffered `data: 1` partial line is processed as a final
line. -/
theorem c5_witness :
    flush ⟨[], { event := some (chars "x") }⟩ = [{ event := some (chars "x") }] ∧
    flush ⟨chars "data: 1", {}⟩ =
      flush ⟨[], (processLine {} (trim (chars "data: 1"))).1⟩ :=
  ⟨c5_rechunk_and_flush.2.1 { event := some (chars "x") } rfl,
   c5_rechunk_and_flush.2.2 {} (chars "data: 1") (by decide)⟩

end CCR
